import Mathlib

/-
A verification development for the VFS emulator core (`vfs_core.py`).

The Python tree of mutable `VFSNode` objects is embedded as an explicit
heap: nodes live in a list indexed by natural-number ids, parent links are
`Option Nat`, and a directory's `children` dict is an insertion-ordered
association list from name to child id.  `time.time()` is modelled by an
abstract strictly increasing counter stored in the state (`clock`): every
call to `time.time()` reads the counter and bumps it.  Functions that
mutate the Python object graph thread the whole state explicitly; Python
exceptions that escape to the caller are modelled with `Except`/`Option`
error values carrying the exception message.
-/

/-- One filesystem node = one Python `VFSNode` object.  `type` is the
string tag used by the source (`"file"` or `"directory"`); `children` is
`some` an association list exactly when the node was created as a
directory; `parent` is the back reference set by `add_child`. -/
structure VFSNode where
  name : String
  type : String
  content : Option String
  children : Option (List (String × Nat))
  parent : Option Nat
  permissions : String
  owner : String
  group : String
  size : Nat
  created_time : Nat
  modified_time : Nat
deriving Repr, DecidableEq

/-- Placeholder returned when a heap index is out of range (never happens
on the states the program actually builds). -/
def defaultNode : VFSNode :=
  { name := "", type := "file", content := none, children := none,
    parent := none, permissions := "", owner := "", group := "",
    size := 0, created_time := 0, modified_time := 0 }

/-- The `VirtualFileSystem` object: heap of nodes, id of `self.root`,
id of `self.current_directory`, the `loaded` flag, `start_time`, and the
abstract clock supplying the next `time.time()` reading. -/
structure VFS where
  nodes : List VFSNode
  root : Nat
  current_directory : Nat
  loaded : Bool
  start_time : Nat
  clock : Nat
deriving Repr, DecidableEq

/-- Indexed read of the heap (a Python attribute access on a node ref). -/
def nthNode : List VFSNode → Nat → VFSNode
  | [], _ => defaultNode
  | n :: _, 0 => n
  | _ :: rest, i + 1 => nthNode rest i

/-- Indexed write of the heap (a Python attribute assignment). -/
def setNth : List VFSNode → Nat → VFSNode → List VFSNode
  | [], _, _ => []
  | _ :: rest, 0, n => n :: rest
  | m :: rest, i + 1, n => m :: setNth rest i n

def getNode (s : VFS) (i : Nat) : VFSNode := nthNode s.nodes i

def setNode (s : VFS) (i : Nat) (n : VFSNode) : VFS :=
  { s with nodes := setNth s.nodes i n }

/-- The children dict of a node; `[]` for a node created as a file
(the source never reads `children` on a file on the paths we model). -/
def childrenD (n : VFSNode) : List (String × Nat) := n.children.getD []

/-- Dict lookup `d[k]` / `k in d`. -/
def assocGet : List (String × Nat) → String → Option Nat
  | [], _ => none
  | (k, v) :: rest, key => if k = key then some v else assocGet rest key

/-- Dict update `d[k] = v`: overwrite in place if the key exists
(Python dicts keep the original insertion position), append otherwise. -/
def assocSet : List (String × Nat) → String → Nat → List (String × Nat)
  | [], key, v => [(key, v)]
  | (k, w) :: rest, key, v =>
    if k = key then (key, v) :: rest else (k, w) :: assocSet rest key v

/-- One `time.time()` call: returns the reading and bumps the clock. -/
def tick (s : VFS) : Nat × VFS := (s.clock, { s with clock := s.clock + 1 })

/-- `VFSNode.__init__`: two `time.time()` calls (created, then modified),
`children` allocated iff the node is a directory.  Returns the fresh id. -/
def mkNode (name type_ : String) (content : Option String)
    (permissions owner group : String) (size : Nat) (s : VFS) : Nat × VFS :=
  let node : VFSNode :=
    { name := name, type := type_, content := content,
      children := if type_ = "directory" then some [] else none,
      parent := none, permissions := permissions, owner := owner,
      group := group, size := size,
      created_time := s.clock, modified_time := s.clock + 1 }
  (s.nodes.length, { s with nodes := s.nodes ++ [node], clock := s.clock + 2 })

/-- `VFSNode.add_child`: raises (here: returns the message) unless the
parent is a directory; otherwise sets the child's `parent`, inserts it
into the parent's `children` under its own name, and refreshes the
parent's `modified_time`. -/
def add_child (s : VFS) (pid cid : Nat) : Option String × VFS :=
  if (getNode s pid).type = "directory" then
    let s1 := setNode s cid { getNode s cid with parent := some pid }
    let (t, s2) := tick s1
    let p := getNode s2 pid
    let p2 := { p with
      children := some (assocSet (childrenD p) (getNode s2 cid).name cid),
      modified_time := t }
    (none, setNode s2 pid p2)
  else (some "Can only add children to directories", s)

/-- `str.strip()` (leading and trailing whitespace removed). -/
def pyStrip (t : String) : String :=
  String.mk (((t.data.dropWhile Char.isWhitespace).reverse.dropWhile
    Char.isWhitespace).reverse)

/-- `'/'.join(parts)`. -/
def joinSlash : List String → String
  | [] => ""
  | [x] => x
  | x :: y :: rest => x ++ "/" ++ joinSlash (y :: rest)

/-- `path.split('/')` on the character list: every `'/'` separates,
empty segments between consecutive separators are kept (they are
filtered out afterwards, as in the source's list comprehension). -/
def splitSlashAux : List Char → List (List Char)
  | [] => [[]]
  | c :: rest =>
    let r := splitSlashAux rest
    if c = '/' then [] :: r
    else
      match r with
      | [] => [[c]]
      | h :: t => (c :: h) :: t

/-- `[p for p in path.split('/') if p]`. -/
def components (cs : List Char) : List String :=
  ((splitSlashAux cs).map (fun l => String.mk l)).filter (fun x => x ≠ "")

/-- `VFSNode.get_path`, the upward walk `while current and current.name`,
collected root-side first (the source appends then reverses).  The walk
is fuelled; the fuel used by `get_path` always covers every acyclic
chain in the heap. -/
def pathNames (s : VFS) : Nat → Nat → List String
  | 0, _ => []
  | fuel + 1, i =>
    let n := getNode s i
    if n.name = "" then []
    else
      match n.parent with
      | none => [n.name]
      | some p => pathNames s fuel p ++ [n.name]

/-- `VFSNode.get_path`: `"/"` for the root (empty name), otherwise
`'/' + '/'.join(reversed(parts))`. -/
def get_path (s : VFS) (i : Nat) : String :=
  if (getNode s i).name = "" then "/"
  else "/" ++ joinSlash (pathNames s (s.nodes.length + 1) i)

/-- The component loop of `resolve_path`.  The state is threaded (and
returned) so that non-mutation is a theorem, not a typing accident. -/
def resolveLoop (s : VFS) : List String → Nat → Option Nat × VFS
  | [], cur => (some cur, s)
  | part :: rest, cur =>
    if part = ".." then
      match (getNode s cur).parent with
      | some p => resolveLoop s rest p
      | none => resolveLoop s rest cur
    else if part = "." then resolveLoop s rest cur
    else if (getNode s cur).type = "directory" then
      match assocGet (childrenD (getNode s cur)) part with
      | some c => resolveLoop s rest c
      | none => (none, s)
    else (none, s)

/-- `path.startswith('/')`. -/
def startsSlash (p : String) : Bool := p.data.head? = some '/'

/-- `VirtualFileSystem.resolve_path`: empty or `"/"` is the root; a
leading `'/'` starts from the root on the rest of the characters
(`path[1:]`), otherwise from the cursor on the whole string; the
filtered components are then consumed by `resolveLoop`. -/
def resolve_path (path : String) (s : VFS) : Option Nat × VFS :=
  if path = "" ∨ path = "/" then (some s.root, s)
  else if startsSlash path then resolveLoop s (components path.data.tail) s.root
  else resolveLoop s (components path.data) s.current_directory

/-- Right-padding helper for the `{x:>8}` format fields. -/
def padLeft (w : Nat) (x : String) : String :=
  String.mk (List.replicate (w - x.length) ' ') ++ x

/-- Rendering of the modification instant.  Timestamps are an abstract
strictly increasing counter in this model, so the `strftime` calendar
rendering of the source is abstracted to the counter's decimal form;
no claim inspects the text of this field. -/
def formatTime (t : Nat) : String := toString t

/-- `VFSNode.get_detailed_info`: `d`/`-` marker plus permission string,
padded owner/group/size (content length for a file with non-empty
content, the stored size otherwise, the constant 4096 for a directory),
formatted time, and name. -/
def get_detailed_info (n : VFSNode) : String :=
  let perm := (if n.type = "directory" then "d" else "-") ++ n.permissions
  let sz : Nat :=
    if n.type = "directory" then 4096
    else
      match n.content with
      | some c => if c = "" then n.size else c.length
      | none => n.size
  perm ++ " " ++ padLeft 8 n.owner ++ " " ++ padLeft 8 n.group ++ " " ++
    padLeft 8 (toString sz) ++ " " ++ formatTime n.modified_time ++ " " ++ n.name

/-- Python's `<` on two characters: code-point order. -/
def charBlt (c d : Char) : Bool := Nat.blt c.toNat d.toNat

/-- Python's `<=` on two strings as character lists: lexicographic by
code point (computable; shown below to agree with `≤` on `String`). -/
def lexLe : List Char → List Char → Bool
  | [], _ => true
  | _ :: _, [] => false
  | c :: cs, d :: ds => charBlt c d || (!charBlt d c && lexLe cs ds)

/-- Python's `<=` on strings, as `sorted` compares dict keys. -/
def pyLe (a b : String) : Bool := lexLe a.data b.data

/-- Insertion step for the name-sorted listing. -/
def insertPair (p : String × Nat) : List (String × Nat) → List (String × Nat)
  | [] => [p]
  | q :: rest => if pyLe p.1 q.1 then p :: q :: rest else q :: insertPair p rest

/-- `sorted(children.items())`: dict items sorted by key (keys are unique
among siblings, so the tuple comparison never reaches the values). -/
def sortPairs : List (String × Nat) → List (String × Nat)
  | [] => []
  | p :: rest => insertPair p (sortPairs rest)

/-- The synthesized `..` entry of a detailed listing: the source builds a
fresh `VFSNode("..", "directory", permissions="rwxr-xr-x", owner="root",
group="root")` on the spot and renders it. -/
def dotdotLine (s : VFS) : String :=
  get_detailed_info
    { name := "..", type := "directory", content := none,
      children := some [], parent := none, permissions := "rwxr-xr-x",
      owner := "root", group := "root", size := 0,
      created_time := s.clock, modified_time := s.clock + 1 }

/-- `f"{path}"` on an optional argument (`None` prints as `"None"`). -/
def pathRepr : Option String → String
  | none => "None"
  | some p => p

/-- The target computation of `list_directory`:
`self.resolve_path(path) if path else self.current_directory`. -/
def listTarget (s : VFS) (path : Option String) : Option Nat :=
  match path with
  | none => some s.current_directory
  | some p => if p = "" then some s.current_directory else (resolve_path p s).1

/-- `VirtualFileSystem.list_directory`.  The source returns an
`(items, error)` pair; `Except` plays that role here. -/
def list_directory (s : VFS) (path : Option String) (detailed : Bool) :
    Except String (List String) :=
  match listTarget s path with
  | none => .error ("Directory not found: " ++ pathRepr path)
  | some t =>
    if (getNode s t).type ≠ "directory" then
      .error ("Not a directory: " ++ pathRepr path)
    else if detailed then
      .ok ((if t ≠ s.root then [dotdotLine s] else []) ++
        (sortPairs (childrenD (getNode s t))).map
          (fun pr => get_detailed_info (getNode s pr.2)))
    else
      .ok ((sortPairs (childrenD (getNode s t))).map
        (fun pr => if (getNode s pr.2).type = "directory"
                   then pr.1 ++ "/" else pr.1))

/-- `VirtualFileSystem.change_directory`: empty path goes to `/home/user`
(falling back to the root) with no type check; otherwise the resolved
target must be a directory and becomes the cursor. -/
def change_directory (path : String) (s : VFS) : Option String × VFS :=
  if path = "" then
    let (h, s1) := resolve_path "/home/user" s
    match h with
    | some hd => (none, { s1 with current_directory := hd })
    | none => (none, { s1 with current_directory := s1.root })
  else
    let (t, s1) := resolve_path path s
    match t with
    | none => (some ("Directory not found: " ++ path), s1)
    | some td =>
      if (getNode s1 td).type ≠ "directory" then
        (some ("Not a directory: " ++ path), s1)
      else (none, { s1 with current_directory := td })

/-- `VirtualFileSystem.get_current_path`. -/
def get_current_path (s : VFS) : String := get_path s s.current_directory

/-- `VirtualFileSystem.read_file`. -/
def read_file (path : String) (s : VFS) : Except String (Option String) :=
  match (resolve_path path s).1 with
  | none => .error ("File not found: " ++ path)
  | some f =>
    if (getNode s f).type ≠ "file" then .error ("Not a file: " ++ path)
    else .ok (getNode s f).content

/-- `VirtualFileSystem.is_valid_name`: rejects the empty/whitespace-only
name and any name containing one of the forbidden characters. -/
def forbiddenChars : List Char := ['/', '\\', ':', '*', '?', '"', '<', '>', '|']

def is_valid_name (name : String) : Bool :=
  if name = "" ∨ pyStrip name = "" then false
  else forbiddenChars.all (fun c => !(name.data.contains c))

/-- `VirtualFileSystem.touch`: reject an empty argument, strip it,
validate; refresh an existing child's `modified_time` (no type check) or
create and attach a fresh empty file. -/
def touch (filename : String) (s : VFS) : Option String × VFS :=
  if filename = "" then (some "укажите имя файла", s)
  else if is_valid_name (pyStrip filename) = false then
    (some ("недопустимое имя файла '" ++ pyStrip filename ++ "'"), s)
  else
    match assocGet (childrenD (getNode s s.current_directory)) (pyStrip filename) with
    | some cid =>
      (none, setNode { s with clock := s.clock + 1 } cid
        { getNode s cid with modified_time := s.clock })
    | none =>
      let (fid, s1) := mkNode (pyStrip filename) "file" (some "") "rw-r--r--"
        "user" "user" 0 s
      (none, (add_child s1 s.current_directory fid).2)

/-- The declarative-source fragment `load_from_xml` consumes: `directory`
and `file` elements with their attributes; attribute absence is `none`.
The `size` attribute is pre-parsed to a number (the source calls `int`
on it). -/
inductive XMLItem where
  | dir (name : Option String) (permissions owner group : Option String)
      (kids : List XMLItem)
  | file (name : Option String) (text : Option String)
      (permissions owner group : Option String) (size : Option Nat)
      (encoding : Option String)
deriving Repr

/-- The three ways `load_from_xml` can see its source: the file is
missing/unreadable (a `FileNotFoundError` message), the markup does not
parse (an `ET.ParseError` message), or it parses into a root element
with a tag and child items. -/
inductive XMLSource where
  | unreadable (msg : String)
  | malformed (msg : String)
  | parsed (tag : String) (items : List XMLItem)
deriving Repr

mutual

/-- One child element of `_parse_directory`'s loop: a `directory` (create,
attach, recurse) or a `file` (create, attach); a missing or empty `name`
attribute raises. -/
def parse_item (s : VFS) (pid : Nat) : XMLItem → Except String Unit × VFS
  | .dir name perms owner group kids =>
    match name with
    | none => (.error "Directory missing 'name' attribute", s)
    | some nm =>
      if nm = "" then (.error "Directory missing 'name' attribute", s)
      else
        let (did, s1) := mkNode nm "directory" none (perms.getD "rwxr-xr-x")
          (owner.getD "user") (group.getD "users") 0 s
        let s2 := (add_child s1 pid did).2
        parse_directory s2 did kids
  | .file name text perms owner group size enc =>
    match name with
    | none => (.error "File missing 'name' attribute", s)
    | some nm =>
      if nm = "" then (.error "File missing 'name' attribute", s)
      else
        let content := pyStrip (text.getD "")
        let content := if enc.getD "text" = "base64" then content else content
        let sz := size.getD content.length
        let (fid, s1) := mkNode nm "file" (some content)
          (perms.getD "rw-r--r--") (owner.getD "user") (group.getD "users") sz s
        (.ok (), (add_child s1 pid fid).2)

/-- `VirtualFileSystem._parse_directory`: children in order, first error
aborts (leaving the mutations made so far in place, as a raised Python
exception does). -/
def parse_directory (s : VFS) (pid : Nat) : List XMLItem → Except String Unit × VFS
  | [] => (.ok (), s)
  | item :: rest =>
    match parse_item s pid item with
    | (.error e, s1) => (.error e, s1)
    | (.ok _, s1) => parse_directory s1 pid rest

end

/-- `VirtualFileSystem.load_from_xml`.  Pre-parse failures surface their
wrapped messages with the state untouched; with a parsed document the
root's children are cleared first and only then is the new tree built,
so a mid-parse failure leaves the partial rebuild behind. -/
def load_from_xml (src : XMLSource) (s : VFS) : Except String Bool × VFS :=
  match src with
  | .unreadable msg => (.error ("Error loading VFS: " ++ msg), s)
  | .malformed msg => (.error ("Invalid XML format: " ++ msg), s)
  | .parsed tag items =>
    if tag = "vfs" then
      match parse_directory
          (setNode s s.root { getNode s s.root with children := some [] })
          s.root items with
      | (.error e, s2) => (.error ("Error loading VFS: " ++ e), s2)
      | (.ok _, s2) => (.ok true, { s2 with loaded := true })
    else (.error "Error loading VFS: Invalid VFS format: root element must be 'vfs'", s)

/-- `VirtualFileSystem.__init__` followed by `_create_default_structure`:
the root, the five top-level directories, `/home/user`, and the three
stock files, in source order. -/
def initVFS : VFS :=
  let s : VFS := { nodes := [], root := 0, current_directory := 0,
                   loaded := false, start_time := 0, clock := 0 }
  let (rid, s) := mkNode "" "directory" none "rwxr-xr-x" "root" "root" 0 s
  let s := { s with root := rid, current_directory := rid,
                    start_time := s.clock, clock := s.clock + 1 }
  let (bin, s) := mkNode "bin" "directory" none "rwxr-xr-x" "root" "root" 0 s
  let (home, s) := mkNode "home" "directory" none "rwxr-xr-x" "root" "root" 0 s
  let (etc, s) := mkNode "etc" "directory" none "rwxr-xr-x" "root" "root" 0 s
  let (tmp, s) := mkNode "tmp" "directory" none "rwxrwxrwt" "root" "root" 0 s
  let (var, s) := mkNode "var" "directory" none "rwxr-xr-x" "root" "root" 0 s
  let s := (add_child s rid bin).2
  let s := (add_child s rid home).2
  let s := (add_child s rid etc).2
  let s := (add_child s rid tmp).2
  let s := (add_child s rid var).2
  let (user, s) := mkNode "user" "directory" none "rwxr-xr-x" "user" "user" 0 s
  let s := (add_child s home user).2
  let (readme, s) := mkNode "readme.txt" "file"
    (some "Welcome to VFS Emulator!\nThis is a virtual file system.")
    "rw-r--r--" "user" "user" 150 s
  let s := (add_child s user readme).2
  let (passwd, s) := mkNode "passwd" "file"
    (some "root:x:0:0:root:/root:/bin/bash\nuser:x:1000:1000:User:/home/user:/bin/bash")
    "rw-r--r--" "root" "root" 100 s
  let s := (add_child s etc passwd).2
  let (hosts, s) := mkNode "hosts" "file"
    (some "127.0.0.1 localhost\n::1 localhost ip6-localhost ip6-loopback")
    "rw-r--r--" "root" "root" 80 s
  let s := (add_child s etc hosts).2
  s

/-! ### Concrete documents and states for witnesses and counterexamples -/

/-- `<vfs><file name="a">hello</file></vfs>` -/
def docGood : XMLSource :=
  .parsed "vfs" [.file (some "a") (some "hello") none none none none none]

/-- `<vfs><directory/></vfs>` — a directory missing its `name`. -/
def docBad : XMLSource := .parsed "vfs" [.dir none none none none []]

/-- `<vfs><directory name=".."/></vfs>` — a loadable directory whose name
collides with the `..` path component. -/
def docDotDot : XMLSource := .parsed "vfs" [.dir (some "..") none none none []]

def stEtc : VFS := (change_directory "/etc" initVFS).2

def stHome : VFS := (change_directory "/home/user" initVFS).2

def stLoaded : VFS := (load_from_xml docGood stHome).2

def stLoadedEtc : VFS := (load_from_xml docGood stEtc).2

def stBadLoad : VFS := (load_from_xml docBad initVFS).2

def stDotDot : VFS := (load_from_xml docDotDot initVFS).2

/-- A tiny well-formed tree (root containing one directory `d`) used to
instantiate invariant theorems at a concrete state. -/
def wsmall : VFS :=
  { nodes := [⟨"", "directory", none, some [("d", 1)], none, "rwxr-xr-x",
      "root", "root", 0, 0, 1⟩,
      ⟨"d", "directory", none, some [], some 0, "rwxr-xr-x", "root", "root",
        0, 2, 3⟩],
    root := 0, current_directory := 0, loaded := false, start_time := 0,
    clock := 4 }

/-! ### Derived notions the spec's invariants talk about -/

/-- Reachability from the root along child edges. -/
inductive Reaches (s : VFS) : Nat → Prop
  | root : Reaches s s.root
  | child {p c : Nat} {nm : String} : Reaches s p →
      (nm, c) ∈ childrenD (getNode s p) → Reaches s c

/-- The cursor invariant the spec claims: the current directory is a
directory-kind node reachable from the root. -/
def cursorOk (s : VFS) : Prop :=
  Reaches s s.current_directory ∧
    (getNode s s.current_directory).type = "directory"

/-- Parent links of reachable nodes lead to reachable nodes — true of
trees the program builds, where `parent` is set only by `add_child`. -/
def ParentClosed (s : VFS) : Prop :=
  ∀ i p, Reaches s i → (getNode s i).parent = some p → Reaches s p

/-- What `cd` with no argument needs in order to restore a directory
cursor: the node it commits (home, or the root fallback) is a directory. -/
def homeTypeOk (s : VFS) : Prop :=
  match (resolve_path "/home/user" s).1 with
  | some h => (getNode s h).type = "directory"
  | none => (getNode s s.root).type = "directory"

/-- A path component that is a plain name: non-empty, not `.` or `..`,
and free of the separator. -/
def normalName (nm : String) : Prop :=
  nm ≠ "" ∧ nm ≠ "." ∧ nm ≠ ".." ∧ '/' ∉ nm.data

/-- The root node looks like the one the constructor creates. -/
def rootOk (s : VFS) : Prop :=
  (getNode s s.root).name = "" ∧ (getNode s s.root).parent = none

/-- Downward spine: `PathTo s n names` records that following `names`
from the root along coherent child/parent edges reaches `n`. -/
inductive PathTo (s : VFS) : Nat → List String → Prop
  | root : PathTo s s.root []
  | child {p : Nat} {names : List String} {nm : String} {c : Nat} :
      PathTo s p names →
      (getNode s p).type = "directory" →
      assocGet (childrenD (getNode s p)) nm = some c →
      (getNode s c).parent = some p →
      (getNode s c).name = nm →
      PathTo s c (names ++ [nm])

/-! ### Heap access lemmas -/

theorem nthNode_oob : ∀ (l : List VFSNode) (i : Nat), l.length ≤ i →
    nthNode l i = defaultNode := by
  intro l
  induction l with
  | nil => intro i _; cases i <;> rfl
  | cons n rest ih =>
    intro i h
    cases i with
    | zero => simp at h
    | succ j => exact ih j (Nat.le_of_succ_le_succ h)

theorem length_setNth : ∀ (l : List VFSNode) (i : Nat) (n : VFSNode),
    (setNth l i n).length = l.length := by
  intro l
  induction l with
  | nil => intro i n; cases i <;> rfl
  | cons m rest ih =>
    intro i n
    cases i with
    | zero => rfl
    | succ j => simpa [setNth] using ih j n

theorem nthNode_setNth_ne : ∀ (l : List VFSNode) (i j : Nat) (n : VFSNode),
    j ≠ i → nthNode (setNth l i n) j = nthNode l j := by
  intro l
  induction l with
  | nil => intro i j n _; cases i <;> rfl
  | cons m rest ih =>
    intro i j n hne
    cases i with
    | zero =>
      cases j with
      | zero => exact absurd rfl hne
      | succ k => rfl
    | succ i' =>
      cases j with
      | zero => rfl
      | succ k => exact ih i' k n (fun h => hne (by rw [h]))

theorem nthNode_setNth_self : ∀ (l : List VFSNode) (i : Nat) (n : VFSNode),
    i < l.length → nthNode (setNth l i n) i = n := by
  intro l
  induction l with
  | nil => intro i n h; simp at h
  | cons m rest ih =>
    intro i n h
    cases i with
    | zero => rfl
    | succ j => exact ih j n (Nat.lt_of_succ_lt_succ h)

theorem nthNode_append_lt : ∀ (l m : List VFSNode) (i : Nat),
    i < l.length → nthNode (l ++ m) i = nthNode l i := by
  intro l
  induction l with
  | nil => intro m i h; simp at h
  | cons n rest ih =>
    intro m i h
    cases i with
    | zero => rfl
    | succ j => exact ih m j (Nat.lt_of_succ_lt_succ h)

theorem nthNode_append_self : ∀ (l : List VFSNode) (n : VFSNode),
    nthNode (l ++ [n]) l.length = n := by
  intro l n
  induction l with
  | nil => rfl
  | cons m rest ih => simpa [setNth] using ih

/-! ### Association-list lemmas -/

theorem assocGet_mem : ∀ (l : List (String × Nat)) (k : String) (v : Nat),
    assocGet l k = some v → (k, v) ∈ l := by
  intro l
  induction l with
  | nil => intro k v h; simp [assocGet] at h
  | cons p rest ih =>
    intro k v h
    by_cases hk : p.1 = k
    · obtain ⟨a, b⟩ := p
      simp only [assocGet] at h
      rw [if_pos hk] at h
      cases h
      simp_all
    · obtain ⟨a, b⟩ := p
      simp only [assocGet] at h
      rw [if_neg hk] at h
      exact List.mem_cons_of_mem _ (ih k v h)

theorem assocSet_append : ∀ (l : List (String × Nat)) (k : String) (v : Nat),
    assocGet l k = none → assocSet l k v = l ++ [(k, v)] := by
  intro l
  induction l with
  | nil => intro k v _; rfl
  | cons p rest ih =>
    intro k v h
    obtain ⟨a, b⟩ := p
    simp only [assocGet] at h
    by_cases hk : a = k
    · rw [if_pos hk] at h; cases h
    · rw [if_neg hk] at h
      simp [assocSet, hk, ih k v h]

/-! ### Sorting lemmas -/

theorem charBlt_iff (c d : Char) : charBlt c d = true ↔ c < d := by
  rw [charBlt, Nat.blt_eq]
  exact gt_iff_lt

theorem lexLe_iff : ∀ (x y : List Char), lexLe x y = true ↔ ¬ y < x := by
  intro x
  induction x with
  | nil =>
    intro y
    constructor
    · intro _ h
      nomatch h
    · intro _
      rfl
  | cons c cs ih =>
    intro y
    cases y with
    | nil =>
      constructor
      · intro h
        cases h
      · intro h
        exact absurd List.Lex.nil h
    | cons d ds =>
      rcases lt_trichotomy c d with h1 | h1 | h1
      · have hb1 : charBlt c d = true := (charBlt_iff c d).mpr h1
        constructor
        · intro _ hlt
          cases hlt with
          | cons h => exact lt_irrefl _ h1
          | rel h => exact lt_asymm h1 h
        · intro _
          rw [lexLe, hb1]
          rfl
      · subst h1
        have hb : charBlt c c = false := by
          rw [← Bool.not_eq_true, charBlt_iff]
          exact lt_irrefl c
        rw [lexLe, hb]
        simp only [Bool.false_or, Bool.not_false, Bool.true_and]
        rw [ih ds]
        constructor
        · intro h hlt
          cases hlt with
          | cons h5 => exact h h5
          | rel h5 => exact lt_irrefl c h5
        · intro h hlt
          exact h (List.Lex.cons hlt)
      · have hb1 : charBlt c d = false := by
          rw [← Bool.not_eq_true, charBlt_iff]
          exact fun h => lt_asymm h1 h
        have hb2 : charBlt d c = true := (charBlt_iff d c).mpr h1
        constructor
        · intro h
          rw [lexLe, hb1, hb2] at h
          cases h
        · intro h
          exact absurd (List.Lex.rel h1) h

theorem pyLe_iff (a b : String) : pyLe a b = true ↔ a ≤ b := by
  rw [pyLe, lexLe_iff]
  exact not_congr (Iff.symm String.lt_iff_toList_lt)

theorem mem_insertPair (p q : String × Nat) :
    ∀ (l : List (String × Nat)), q ∈ insertPair p l ↔ q = p ∨ q ∈ l := by
  intro l
  induction l with
  | nil => simp [insertPair]
  | cons r rest ih =>
    by_cases h : pyLe p.1 r.1 = true
    · simp [insertPair, h]
    · simp [insertPair, h, ih]
      tauto

theorem mem_sortPairs (q : String × Nat) :
    ∀ (l : List (String × Nat)), q ∈ sortPairs l ↔ q ∈ l := by
  intro l
  induction l with
  | nil => simp [sortPairs]
  | cons r rest ih =>
    simp [sortPairs, mem_insertPair, ih]

theorem perm_sortPairs : ∀ (l : List (String × Nat)), (sortPairs l).Perm l := by
  intro l
  induction l with
  | nil => rfl
  | cons p rest ih =>
    have hperm : ∀ (m : List (String × Nat)), (insertPair p m).Perm (p :: m) := by
      intro m
      induction m with
      | nil => rfl
      | cons q t iht =>
        by_cases h : pyLe p.1 q.1 = true
        · simp [insertPair, h]
        · simp only [insertPair, if_neg h]
          exact (iht.cons q).trans (List.Perm.swap p q t)
    exact ((hperm (sortPairs rest)).trans (ih.cons p))

theorem sorted_insertPair (p : String × Nat) :
    ∀ (l : List (String × Nat)), List.Sorted (· ≤ ·) (l.map Prod.fst) →
      List.Sorted (· ≤ ·) ((insertPair p l).map Prod.fst) := by
  intro l
  induction l with
  | nil => intro _; simp [insertPair]
  | cons q rest ih =>
    intro hs
    rw [List.map_cons, List.sorted_cons] at hs
    by_cases h : pyLe p.1 q.1 = true
    · have hle : p.1 ≤ q.1 := (pyLe_iff p.1 q.1).mp h
      rw [insertPair, if_pos h]
      simp only [List.map_cons, List.sorted_cons]
      refine ⟨?_, ?_⟩
      · intro b hb
        rcases List.mem_cons.mp hb with h1 | h2
        · exact h1 ▸ hle
        · rcases List.mem_map.mp h2 with ⟨r, hr, hrb⟩
          exact hrb ▸ le_trans hle (hs.1 _ (List.mem_map.mpr ⟨r, hr, rfl⟩))
      · exact hs
    · have hle : q.1 ≤ p.1 := le_of_not_le (fun hc => h ((pyLe_iff p.1 q.1).mpr hc))
      rw [insertPair, if_neg h]
      simp only [List.map_cons, List.sorted_cons]
      refine ⟨?_, ih hs.2⟩
      intro b hb
      rcases List.mem_map.mp hb with ⟨r, hr, hrb⟩
      rcases (mem_insertPair p r rest).mp hr with h1 | h2
      · subst h1; exact hrb ▸ hle
      · exact hrb ▸ hs.1 _ (List.mem_map.mpr ⟨r, h2, rfl⟩)

theorem sorted_sortPairs : ∀ (l : List (String × Nat)),
    List.Sorted (· ≤ ·) ((sortPairs l).map Prod.fst) := by
  intro l
  induction l with
  | nil => simp [sortPairs]
  | cons p rest ih => exact sorted_insertPair p (sortPairs rest) ih

/-! ### `pyStrip` lemmas -/

theorem pyStrip_empty : pyStrip "" = "" := rfl

theorem pyStrip_eq_empty_of_eq (t : String) (h : t = "") : pyStrip t = "" := by
  rw [h]; rfl

theorem mem_dropWhile_of_neg (p : Char → Bool) (c : Char) :
    ∀ (l : List Char), c ∈ l → p c = false → c ∈ l.dropWhile p := by
  intro l
  induction l with
  | nil => intro h _; simp at h
  | cons d rest ih =>
    intro hmem hp
    by_cases hd : p d
    · rw [List.dropWhile_cons_of_pos hd]
      rcases List.mem_cons.mp hmem with h1 | h2
      · subst h1; rw [hd] at hp; cases hp
      · exact ih h2 hp
    · rw [List.dropWhile_cons_of_neg hd]
      exact hmem

theorem mem_pyStrip (t : String) (c : Char) (hc : c ∈ t.data)
    (hws : c.isWhitespace = false) : c ∈ (pyStrip t).data := by
  show c ∈ ((t.data.dropWhile Char.isWhitespace).reverse.dropWhile
    Char.isWhitespace).reverse
  rw [List.mem_reverse]
  apply mem_dropWhile_of_neg _ _ _ _ hws
  rw [List.mem_reverse]
  exact mem_dropWhile_of_neg _ _ _ hc hws

theorem dropWhile_head_false (p : Char → Bool) (c : Char) (t : List Char) :
    ∀ (l : List Char), l.dropWhile p = c :: t → p c = false := by
  intro l
  induction l with
  | nil => intro h; simp at h
  | cons d rest ih =>
    intro h
    by_cases hd : p d
    · rw [List.dropWhile_cons_of_pos hd] at h
      exact ih h
    · rw [List.dropWhile_cons_of_neg hd] at h
      cases h
      simpa using hd

theorem strip2_idem (p : Char → Bool) (l : List Char) :
    (((((l.dropWhile p).reverse.dropWhile p).reverse).dropWhile p).reverse.dropWhile
        p).reverse =
      ((l.dropWhile p).reverse.dropWhile p).reverse := by
  generalize ha : l.dropWhile p = a
  generalize hb : (a.reverse.dropWhile p).reverse = b
  have hpre : b <+: a := by
    rw [← hb]
    have h0 : (a.reverse.dropWhile p).reverse <+: a.reverse.reverse :=
      List.reverse_prefix.mpr (List.dropWhile_suffix p)
    simpa using h0
  have hbdrop : b.dropWhile p = b := by
    cases he : b with
    | nil => rfl
    | cons c rest =>
      rcases hpre with ⟨r, hr⟩
      rw [he] at hr
      have hc : p c = false := by
        apply dropWhile_head_false p c (rest ++ r) l
        rw [ha, ← hr]
        rfl
      exact List.dropWhile_cons_of_neg (by simp [hc])
  have hbrev : b.reverse.dropWhile p = b.reverse := by
    rw [← hb, List.reverse_reverse, List.dropWhile_idempotent]
  rw [hbdrop, hbrev, List.reverse_reverse]

theorem pyStrip_idem (t : String) : pyStrip (pyStrip t) = pyStrip t := by
  show String.mk _ = String.mk _
  exact congrArg String.mk (strip2_idem Char.isWhitespace t.data)

theorem pyStrip_ne_of_ne (t : String) (h : pyStrip t ≠ "") : t ≠ "" := by
  intro he
  exact h (by rw [he]; rfl)

/-! ### `resolveLoop` never mutates the state -/

theorem resolveLoop_state (s : VFS) :
    ∀ (parts : List String) (cur : Nat), (resolveLoop s parts cur).2 = s := by
  intro parts
  induction parts with
  | nil => intro cur; rfl
  | cons part rest ih =>
    intro cur
    rw [resolveLoop]
    by_cases h1 : part = ".."
    · rw [if_pos h1]
      cases (getNode s cur).parent with
      | none => exact ih cur
      | some p => exact ih p
    · rw [if_neg h1]
      by_cases h2 : part = "."
      · rw [if_pos h2]; exact ih cur
      · rw [if_neg h2]
        by_cases h3 : (getNode s cur).type = "directory"
        · rw [if_pos h3]
          cases assocGet (childrenD (getNode s cur)) part with
          | none => rfl
          | some c => exact ih c
        · rw [if_neg h3]

theorem resolve_path_state (p : String) (s : VFS) : (resolve_path p s).2 = s := by
  rw [resolve_path]
  by_cases h : p = "" ∨ p = "/"
  · rw [if_pos h]
  · rw [if_neg h]
    by_cases hs : startsSlash p
    · rw [if_pos hs]; exact resolveLoop_state s _ _
    · rw [if_neg hs]; exact resolveLoop_state s _ _

/-! ### Splitting and joining lemmas -/

theorem str_eq_empty_iff (p : String) : p = "" ↔ p.data = [] := by
  constructor
  · intro h; rw [h]
  · intro h
    have h1 : String.mk p.data = String.mk [] := by rw [h]
    exact h1

theorem splitSlashAux_ne_nil : ∀ (cs : List Char), splitSlashAux cs ≠ [] := by
  intro cs
  induction cs with
  | nil => simp [splitSlashAux]
  | cons c rest ih =>
    rw [splitSlashAux]
    by_cases h : c = '/'
    · simp [h]
    · rw [if_neg h]
      cases hr : splitSlashAux rest with
      | nil => exact absurd hr ih
      | cons a b => simp

theorem splitSlashAux_append : ∀ (xs ys : List Char),
    splitSlashAux (xs ++ '/' :: ys) = splitSlashAux xs ++ splitSlashAux ys := by
  intro xs ys
  induction xs with
  | nil => simp [splitSlashAux]
  | cons c rest ih =>
    show splitSlashAux (c :: (rest ++ '/' :: ys)) = splitSlashAux (c :: rest) ++ _
    rw [splitSlashAux, splitSlashAux, ih]
    by_cases h : c = '/'
    · simp [h]
    · rw [if_neg h, if_neg h]
      cases hr : splitSlashAux rest with
      | nil => exact absurd hr (splitSlashAux_ne_nil rest)
      | cons a b => simp

theorem components_nil : components [] = [] := rfl

theorem components_append (xs ys : List Char) :
    components (xs ++ '/' :: ys) = components xs ++ components ys := by
  simp [components, splitSlashAux_append, List.filter_append]

theorem components_cons_slash (ys : List Char) :
    components ('/' :: ys) = components ys := by
  have h := components_append [] ys
  simpa [components_nil] using h

theorem components_append_slash (zs : List Char) :
    components (zs ++ ['/']) = components zs := by
  have h := components_append zs []
  simpa [components_nil] using h

theorem splitSlashAux_no_slash : ∀ (cs : List Char), '/' ∉ cs →
    splitSlashAux cs = [cs] := by
  intro cs
  induction cs with
  | nil => intro _; rfl
  | cons c rest ih =>
    intro h
    have hc : c ≠ '/' := fun he => h (he ▸ List.mem_cons_self c rest)
    have hrest : '/' ∉ rest := fun hm => h (List.mem_cons_of_mem c hm)
    rw [splitSlashAux, if_neg (fun he => hc he), ih hrest]

theorem components_no_slash (cs : List Char) (h : '/' ∉ cs) (hne : cs ≠ []) :
    components cs = [String.mk cs] := by
  rw [components, splitSlashAux_no_slash cs h]
  have : (String.mk cs) ≠ "" := by
    intro he
    exact hne ((str_eq_empty_iff (String.mk cs)).mp he)
  simp [this]

theorem components_joinSlash : ∀ (names : List String),
    (∀ nm ∈ names, nm ≠ "" ∧ '/' ∉ nm.data) →
    components (joinSlash names).data = names := by
  intro names
  induction names with
  | nil => intro _; rfl
  | cons x rest ih =>
    intro h
    cases rest with
    | nil =>
      have hx := h x (List.mem_cons_self x [])
      show components x.data = [x]
      rw [components_no_slash x.data hx.2
        (fun he => hx.1 ((str_eq_empty_iff x).mpr he))]
    | cons y t =>
      have hx := h x (List.mem_cons_self x (y :: t))
      have hrest : ∀ nm ∈ y :: t, nm ≠ "" ∧ '/' ∉ nm.data :=
        fun nm hm => h nm (List.mem_cons_of_mem x hm)
      show components (x ++ "/" ++ joinSlash (y :: t)).data = x :: y :: t
      have hdata : (x ++ "/" ++ joinSlash (y :: t)).data =
          x.data ++ '/' :: (joinSlash (y :: t)).data := by
        rw [String.data_append, String.data_append, List.append_assoc]
        rfl
      rw [hdata, components_append,
        components_no_slash x.data hx.2
          (fun he => hx.1 ((str_eq_empty_iff x).mpr he)),
        ih hrest]
      rfl

/-! ### A branch-free description of `resolve_path` -/

theorem resolve_path_eq (p : String) (s : VFS) :
    resolve_path p s =
      if p = "" then (some s.root, s)
      else if startsSlash p then resolveLoop s (components p.data.tail) s.root
      else resolveLoop s (components p.data) s.current_directory := by
  rw [resolve_path]
  by_cases h0 : p = ""
  · rw [if_pos (Or.inl h0), if_pos h0]
  · by_cases h1 : p = "/"
    · subst h1
      rw [if_pos (Or.inr rfl), if_neg h0]
      have hss : startsSlash "/" = true := rfl
      rw [if_pos hss]
      rfl
    · rw [if_neg (by simp [h0, h1]), if_neg h0]

theorem resolve_abs (s : VFS) (p : String) (xs : List Char)
    (h : p.data = '/' :: xs) :
    resolve_path p s = resolveLoop s (components xs) s.root := by
  rw [resolve_path_eq]
  have hne : p ≠ "" := by
    intro he
    rw [(str_eq_empty_iff p).mp he] at h
    cases h
  have hss : startsSlash p = true := by
    unfold startsSlash
    rw [h]
    rfl
  rw [if_neg hne, if_pos hss, h]
  rfl

theorem resolve_rel (s : VFS) (p : String) (c : Char) (xs : List Char)
    (h : p.data = c :: xs) (hc : c ≠ '/') :
    resolve_path p s = resolveLoop s (components (c :: xs)) s.current_directory := by
  rw [resolve_path_eq]
  have hne : p ≠ "" := by
    intro he
    rw [(str_eq_empty_iff p).mp he] at h
    cases h
  have hss : startsSlash p = false := by
    unfold startsSlash
    rw [h]
    simp [hc]
  rw [if_neg hne, if_neg (by simp [hss]), h]

/-- Claim C4: `resolve_path` splits the path on `'/'` discarding empty
components (`a//b` resolves like `a/b`, a trailing slash is ignored) and
consumes components left to right: `.` is a no-op, `..` moves to the
parent when one exists and otherwise stays put (so the root's `..` is the
root), and any other component requires the current node to be a
directory with a child of that name, failing immediately with the `none`
sentinel otherwise.  The embedding is total, so no exception can reach
the caller. -/
theorem C4_resolve_semantics (s : VFS) (a b p nm : String) (rest : List String)
    (cur : Nat) (h1 : nm ≠ ".") (h2 : nm ≠ "..") :
    resolve_path (a ++ "//" ++ b) s = resolve_path (a ++ "/" ++ b) s
    ∧ resolve_path (p ++ "/") s = resolve_path p s
    ∧ resolveLoop s ("." :: rest) cur = resolveLoop s rest cur
    ∧ resolveLoop s (".." :: rest) cur =
        (match (getNode s cur).parent with
         | some q => resolveLoop s rest q
         | none => resolveLoop s rest cur)
    ∧ resolveLoop s (nm :: rest) cur =
        (if (getNode s cur).type = "directory" then
           match assocGet (childrenD (getNode s cur)) nm with
           | some c => resolveLoop s rest c
           | none => (none, s)
         else (none, s)) := by
  refine ⟨?_, ?_, ?_, ?_, ?_⟩
  · have dataA : (a ++ "//" ++ b).data = a.data ++ '/' :: '/' :: b.data := by
      rw [String.data_append, String.data_append, List.append_assoc]
      rfl
    have dataB : (a ++ "/" ++ b).data = a.data ++ '/' :: b.data := by
      rw [String.data_append, String.data_append, List.append_assoc]
      rfl
    cases ha : a.data with
    | nil =>
      rw [resolve_abs s _ ('/' :: b.data) (by simp [dataA, ha]),
        resolve_abs s _ b.data (by simp [dataB, ha]),
        components_cons_slash]
    | cons c A =>
      by_cases hc : c = '/'
      · subst hc
        rw [resolve_abs s _ (A ++ '/' :: '/' :: b.data) (by simp [dataA, ha]),
          resolve_abs s _ (A ++ '/' :: b.data) (by simp [dataB, ha]),
          components_append, components_append, components_cons_slash]
      · rw [resolve_rel s _ c (A ++ '/' :: '/' :: b.data) (by simp [dataA, ha]) hc,
          resolve_rel s _ c (A ++ '/' :: b.data) (by simp [dataB, ha]) hc]
        have e1 : (c :: (A ++ '/' :: '/' :: b.data)) =
            (c :: A) ++ '/' :: '/' :: b.data := rfl
        have e2 : (c :: (A ++ '/' :: b.data)) = (c :: A) ++ '/' :: b.data := rfl
        rw [e1, e2, components_append, components_append, components_cons_slash]
  · by_cases hp : p = ""
    · subst hp
      rw [resolve_abs s ("" ++ "/") [] rfl, resolve_path_eq "" s, if_pos rfl]
      rfl
    · have dataP : (p ++ "/").data = p.data ++ ['/'] := by
        rw [String.data_append]
      cases hd : p.data with
      | nil => exact absurd ((str_eq_empty_iff p).mpr hd) hp
      | cons c xs =>
        by_cases hc : c = '/'
        · subst hc
          rw [resolve_abs s (p ++ "/") (xs ++ ['/']) (by simp [dataP, hd]),
            resolve_abs s p xs hd, components_append_slash]
        · rw [resolve_rel s (p ++ "/") c (xs ++ ['/']) (by simp [dataP, hd]) hc,
            resolve_rel s p c xs hd hc]
          have e : (c :: (xs ++ ['/'])) = (c :: xs) ++ ['/'] := rfl
          rw [e, components_append_slash]
  · rw [resolveLoop, if_neg (by decide), if_pos rfl]
  · rw [resolveLoop, if_pos rfl]
  · rw [resolveLoop, if_neg h2, if_neg h1]

/-- Witness for C4 at concrete inputs on the default tree. -/
theorem C4_resolve_semantics_witness :
    (("etc" : String) ≠ "." ∧ ("etc" : String) ≠ "..")
    ∧ (resolve_path ("a" ++ "//" ++ "b") initVFS =
         resolve_path ("a" ++ "/" ++ "b") initVFS
       ∧ resolve_path ("/etc" ++ "/") initVFS = resolve_path "/etc" initVFS
       ∧ resolveLoop initVFS ("." :: []) 0 = resolveLoop initVFS [] 0
       ∧ resolveLoop initVFS (".." :: []) 0 =
           (match (getNode initVFS 0).parent with
            | some q => resolveLoop initVFS [] q
            | none => resolveLoop initVFS [] 0)
       ∧ resolveLoop initVFS ("etc" :: []) 0 =
           (if (getNode initVFS 0).type = "directory" then
              match assocGet (childrenD (getNode initVFS 0)) "etc" with
              | some c => resolveLoop initVFS [] c
              | none => (none, initVFS)
            else (none, initVFS))) :=
  ⟨⟨by decide, by decide⟩,
    C4_resolve_semantics initVFS "a" "b" "/etc" "etc" [] 0 (by decide) (by decide)⟩

/-- Claim C6: path resolution is a pure read — it returns the state it
was given (tree and cursor untouched), so two calls with no intervening
mutation return the same node with the same full path; only
`change_directory` commits a successfully resolved directory as the new
cursor. -/
theorem C6_resolve_pure (s : VFS) (p q : String) (t : Nat) (hq : q ≠ "")
    (ht : (resolve_path q s).1 = some t)
    (htd : (getNode s t).type = "directory") :
    (resolve_path p s).2 = s
    ∧ (resolve_path p ((resolve_path p s).2)).1 = (resolve_path p s).1
    ∧ ((resolve_path p ((resolve_path p s).2)).1.map (get_path s)) =
        ((resolve_path p s).1.map (get_path s))
    ∧ (change_directory q s).1 = none
    ∧ ((change_directory q s).2).current_directory = t := by
  have hstate := resolve_path_state p s
  have hpair : resolve_path q s = (some t, s) :=
    Prod.ext ht (resolve_path_state q s)
  have hcd : change_directory q s = (none, { s with current_directory := t }) := by
    rw [change_directory, if_neg hq, hpair]
    show (if (getNode s t).type ≠ "directory" then _ else _) = _
    rw [if_neg (not_not_intro htd)]
  refine ⟨hstate, by rw [hstate], by rw [hstate], by rw [hcd], by rw [hcd]⟩

/-- Witness for C6 at `/etc` on the default tree. -/
theorem C6_resolve_pure_witness :
    (("/etc" : String) ≠ "" ∧ (resolve_path "/etc" initVFS).1 = some 3
      ∧ (getNode initVFS 3).type = "directory")
    ∧ ((resolve_path "/home/user" initVFS).2 = initVFS
       ∧ (resolve_path "/home/user" ((resolve_path "/home/user" initVFS).2)).1 =
           (resolve_path "/home/user" initVFS).1
       ∧ ((resolve_path "/home/user" ((resolve_path "/home/user" initVFS).2)).1.map
             (get_path initVFS)) =
           ((resolve_path "/home/user" initVFS).1.map (get_path initVFS))
       ∧ (change_directory "/etc" initVFS).1 = none
       ∧ ((change_directory "/etc" initVFS).2).current_directory = 3) :=
  ⟨⟨by decide, rfl, rfl⟩,
    C6_resolve_pure initVFS "/home/user" "/etc" 3 (by decide) rfl rfl⟩

/-- Claim C8: `touch` rejects any name containing a forbidden character
(`/ \ : * ? " < > |`) and any empty or whitespace-only name with an
error, leaving the state (in particular the current directory's children
and metadata) completely unchanged; forbidden characters are never
silently stripped. -/
theorem C8_touch_invalid_name (s : VFS) (name : String)
    (h : (∃ c ∈ forbiddenChars, c ∈ name.data) ∨ pyStrip name = "") :
    ∃ e, touch name s = (some e, s) := by
  by_cases h0 : name = ""
  · exact ⟨"укажите имя файла", by rw [touch, if_pos h0]⟩
  · have hval : is_valid_name (pyStrip name) = false := by
      rcases h with ⟨c, hcf, hcm⟩ | hws
      · by_cases hstrip : pyStrip name = ""
        · rw [is_valid_name, if_pos (Or.inl hstrip)]
        · have hallws : ∀ x ∈ forbiddenChars, x.isWhitespace = false := by decide
          have hcmem : c ∈ (pyStrip name).data :=
            mem_pyStrip name c hcm (hallws c hcf)
          rw [is_valid_name,
            if_neg (by rw [pyStrip_idem]; simp [hstrip]),
            List.all_eq_false]
          exact ⟨c, hcf, by simpa using hcmem⟩
      · rw [is_valid_name, if_pos (Or.inl hws)]
    exact ⟨"недопустимое имя файла '" ++ pyStrip name ++ "'",
      by rw [touch, if_neg h0, if_pos hval]⟩

/-- Witness for C8: `touch "a/b"` fails and leaves the default tree
unchanged. -/
theorem C8_touch_invalid_name_witness :
    ((∃ c ∈ forbiddenChars, c ∈ ("a/b" : String).data) ∨ pyStrip "a/b" = "")
    ∧ ∃ e, touch "a/b" initVFS = (some e, initVFS) :=
  ⟨Or.inl (by decide), C8_touch_invalid_name initVFS "a/b" (Or.inl (by decide))⟩

/-- Claim C10: `touch` strips surrounding whitespace before validating
and creating, so an argument with leading/trailing whitespace around an
otherwise non-blank name behaves exactly like the stripped name (the
child created or refreshed is literally the stripped name). -/
theorem C10_touch_strips (s : VFS) (name : String) (h : pyStrip name ≠ "") :
    touch name s = touch (pyStrip name) s := by
  have h0 : name ≠ "" := pyStrip_ne_of_ne name h
  rw [touch, touch, if_neg h0, if_neg h, pyStrip_idem]

/-- Witness for C10: `touch "  x  "` behaves like `touch "x"`. -/
theorem C10_touch_strips_witness :
    pyStrip "  x  " ≠ "" ∧ touch "  x  " initVFS = touch (pyStrip "  x  ") initVFS :=
  ⟨by decide, C10_touch_strips initVFS "  x  " (by decide)⟩

/-! ### The loader never touches the cursor -/

theorem add_child_cursor (s : VFS) (pid cid : Nat) :
    ((add_child s pid cid).2).current_directory = s.current_directory := by
  rw [add_child]
  by_cases h : (getNode s pid).type = "directory"
  · rw [if_pos h]
    rfl
  · rw [if_neg h]

mutual

theorem parse_item_cursor (s : VFS) (pid : Nat) (it : XMLItem) :
    ((parse_item s pid it).2).current_directory = s.current_directory := by
  cases it with
  | dir name perms owner group kids =>
    cases name with
    | none => rfl
    | some nm =>
      by_cases hnm : nm = ""
      · rw [parse_item, if_pos hnm]
      · rw [parse_item, if_neg hnm]
        rw [parse_directory_cursor]
        rw [add_child_cursor]
        rfl
  | file name text perms owner group size enc =>
    cases name with
    | none => rfl
    | some nm =>
      by_cases hnm : nm = ""
      · rw [parse_item, if_pos hnm]
      · rw [parse_item, if_neg hnm]
        rw [add_child_cursor]
        rfl

theorem parse_directory_cursor (s : VFS) (pid : Nat) (items : List XMLItem) :
    ((parse_directory s pid items).2).current_directory = s.current_directory := by
  cases items with
  | nil => rfl
  | cons item rest =>
    rw [parse_directory]
    cases h : parse_item s pid item with
    | mk r s1 =>
      have hcur : s1.current_directory = s.current_directory := by
        have := parse_item_cursor s pid item
        rw [h] at this
        exact this
      cases r with
      | error e => exact hcur
      | ok u => rw [parse_directory_cursor, hcur]

end

theorem load_cursor (src : XMLSource) (s : VFS) :
    ((load_from_xml src s).2).current_directory = s.current_directory := by
  cases src with
  | unreadable msg => rfl
  | malformed msg => rfl
  | parsed tag items =>
    rw [load_from_xml]
    by_cases htag : tag = "vfs"
    · rw [if_pos htag]
      cases h : parse_directory
          (setNode s s.root { getNode s s.root with children := some [] })
          s.root items with
      | mk r s2 =>
        have hcur : s2.current_directory = s.current_directory := by
          have h2 := parse_directory_cursor
            (setNode s s.root { getNode s s.root with children := some [] })
            s.root items
          rw [h] at h2
          exact h2
        cases r with
        | error e => exact hcur
        | ok u => exact hcur
    · rw [if_neg htag]

/-- Claim C1 is false as stated: a load failing on a missing `name`
attribute does NOT leave the prior tree unchanged.  `load_from_xml`
clears the root's children before parsing, so on `docBad` (a directory
element with no name) the load errors but the root listing has become
empty, no longer the five stock directories. -/
theorem C1_counterexample :
    (load_from_xml docBad initVFS).1 =
      .error "Error loading VFS: Directory missing 'name' attribute"
    ∧ list_directory initVFS (some "/") false =
        .ok ["bin/", "etc/", "home/", "tmp/", "var/"]
    ∧ list_directory stBadLoad (some "/") false = .ok []
    ∧ list_directory stBadLoad (some "/") false ≠
        list_directory initVFS (some "/") false := by
  refine ⟨rfl, rfl, rfl, ?_⟩
  rw [show list_directory stBadLoad (some "/") false = .ok [] from rfl,
    show list_directory initVFS (some "/") false =
      .ok ["bin/", "etc/", "home/", "tmp/", "var/"] from rfl]
  simp

/-- Claim C1 (amended): only the load failures detected before parsing
begins — unreadable source, malformed markup, root-tag mismatch — leave
the state (tree, cursor, prior content) exactly unchanged while
surfacing a descriptive error.  A missing `name` attribute is raised in
mid-parse, after the root's children were already cleared, so there the
prior tree is lost (see the counterexample). -/
theorem C1_load_prefail_unchanged (s : VFS) (msg tag : String)
    (items : List XMLItem) (htag : tag ≠ "vfs") :
    load_from_xml (.unreadable msg) s =
      (.error ("Error loading VFS: " ++ msg), s)
    ∧ load_from_xml (.malformed msg) s =
        (.error ("Invalid XML format: " ++ msg), s)
    ∧ load_from_xml (.parsed tag items) s =
        (.error "Error loading VFS: Invalid VFS format: root element must be 'vfs'",
          s) := by
  refine ⟨rfl, rfl, ?_⟩
  rw [load_from_xml, if_neg htag]

/-- Witness for the amended C1 at a concrete wrong-tag document. -/
theorem C1_load_prefail_unchanged_witness :
    ("notvfs" : String) ≠ "vfs"
    ∧ load_from_xml (.parsed "notvfs" []) initVFS =
        (.error "Error loading VFS: Invalid VFS format: root element must be 'vfs'",
          initVFS) :=
  ⟨by decide, (C1_load_prefail_unchanged initVFS "m" "notvfs" [] (by decide)).2.2⟩

/-- Claim C3 is false as stated: after a successful reload the cursor is
NOT reset to the root or to the home directory — `load_from_xml` never
touches `current_directory`.  Concretely: with the cursor at `/etc`, a
successful load of `docGood` leaves the cursor exactly where it was; its
path is still `/etc`, which is neither `/` nor `/home/user`, and the new
tree does not even contain `/home/user`. -/
theorem C3_counterexample :
    (load_from_xml docGood stEtc).1 = .ok true
    ∧ stLoadedEtc.current_directory = stEtc.current_directory
    ∧ stLoadedEtc.current_directory ≠ stLoadedEtc.root
    ∧ get_current_path stLoadedEtc = "/etc"
    ∧ (resolve_path "/home/user" stLoadedEtc).1 = none := by
  exact ⟨rfl, rfl, by decide, rfl, rfl⟩

/-- Claim C3 (amended): a reload — successful or not — leaves the cursor
reference exactly as it was (the code never resets `current_directory`
during `load_from_xml`). -/
theorem C3_load_keeps_cursor (src : XMLSource) (s : VFS) :
    ((load_from_xml src s).2).current_directory = s.current_directory :=
  load_cursor src s

/-- Claim C7: a successful `list_directory` renders the target's children
sorted lexicographically by name (the `Sorted`/`Perm` conjuncts), with
directory entries suffixed `/` in plain mode, and in detailed mode a
synthesized `..` line is prepended as the first line exactly when the
target is not the root. -/
theorem C7_listing (s : VFS) (p : Option String) (t : Nat)
    (ht : listTarget s p = some t)
    (htd : (getNode s t).type = "directory") :
    list_directory s p false = .ok ((sortPairs (childrenD (getNode s t))).map
        (fun pr => if (getNode s pr.2).type = "directory" then pr.1 ++ "/" else pr.1))
    ∧ list_directory s p true = .ok ((if t ≠ s.root then [dotdotLine s] else []) ++
        (sortPairs (childrenD (getNode s t))).map
          (fun pr => get_detailed_info (getNode s pr.2)))
    ∧ List.Sorted (· ≤ ·) ((sortPairs (childrenD (getNode s t))).map Prod.fst)
    ∧ (sortPairs (childrenD (getNode s t))).Perm (childrenD (getNode s t)) := by
  have hnd : ¬ ((getNode s t).type ≠ "directory") := not_not_intro htd
  refine ⟨?_, ?_, sorted_sortPairs _, perm_sortPairs _⟩
  · simp only [list_directory, ht]
    rw [if_neg hnd]
    rfl
  · simp only [list_directory, ht]
    rw [if_neg hnd]
    rfl

/-- Witness for C7 on `/etc` of the default tree (a non-root directory). -/
theorem C7_listing_witness :
    (listTarget initVFS (some "/etc") = some 3
      ∧ (getNode initVFS 3).type = "directory")
    ∧ (list_directory initVFS (some "/etc") false =
        .ok ((sortPairs (childrenD (getNode initVFS 3))).map
          (fun pr => if (getNode initVFS pr.2).type = "directory"
                     then pr.1 ++ "/" else pr.1))
      ∧ list_directory initVFS (some "/etc") true =
          .ok ((if (3 : Nat) ≠ initVFS.root then [dotdotLine initVFS] else []) ++
            (sortPairs (childrenD (getNode initVFS 3))).map
              (fun pr => get_detailed_info (getNode initVFS pr.2)))
      ∧ List.Sorted (· ≤ ·) ((sortPairs (childrenD (getNode initVFS 3))).map Prod.fst)
      ∧ (sortPairs (childrenD (getNode initVFS 3))).Perm
          (childrenD (getNode initVFS 3))) :=
  ⟨⟨rfl, rfl⟩, C7_listing initVFS (some "/etc") 3 rfl rfl⟩

theorem getNode_setNode_ne (s : VFS) (i j : Nat) (n : VFSNode) (h : j ≠ i) :
    getNode (setNode s i n) j = getNode s j := nthNode_setNth_ne s.nodes i j n h

theorem getNode_setNode_self (s : VFS) (i : Nat) (n : VFSNode)
    (h : i < s.nodes.length) : getNode (setNode s i n) i = n :=
  nthNode_setNth_self s.nodes i n h

theorem setNode_length (s : VFS) (i : Nat) (n : VFSNode) :
    (setNode s i n).nodes.length = s.nodes.length := length_setNth s.nodes i n

theorem add_child_parts (s : VFS) (pid cid : Nat)
    (htype : (getNode s pid).type = "directory")
    (hpid : pid < s.nodes.length) (hne : pid ≠ cid) (hcid : cid < s.nodes.length) :
    (add_child s pid cid).1 = none
    ∧ getNode (add_child s pid cid).2 cid = { getNode s cid with parent := some pid }
    ∧ getNode (add_child s pid cid).2 pid =
        { getNode s pid with
          children := some (assocSet (childrenD (getNode s pid))
            (getNode s cid).name cid),
          modified_time := s.clock }
    ∧ (∀ j, j ≠ pid → j ≠ cid → getNode (add_child s pid cid).2 j = getNode s j)
    ∧ (add_child s pid cid).2.current_directory = s.current_directory
    ∧ (add_child s pid cid).2.root = s.root
    ∧ (add_child s pid cid).2.loaded = s.loaded
    ∧ (add_child s pid cid).2.nodes.length = s.nodes.length
    ∧ (add_child s pid cid).2.clock = s.clock + 1 := by
  rw [add_child, if_pos htype]
  simp only [setNode, getNode, tick]
  have hlen : cid < (setNth s.nodes cid { nthNode s.nodes cid with
      parent := some pid }).length := by
    rw [length_setNth]
    exact hcid
  have hlenp : pid < (setNth s.nodes cid { nthNode s.nodes cid with
      parent := some pid }).length := by
    rw [length_setNth]
    exact hpid
  refine ⟨trivial, ?_, ?_, ?_, trivial, trivial, trivial, ?_, trivial⟩
  · rw [nthNode_setNth_ne _ _ _ _ (Ne.symm hne), nthNode_setNth_self _ _ _ hcid]
  · rw [nthNode_setNth_self _ _ _ hlenp,
      nthNode_setNth_ne _ _ _ _ hne, nthNode_setNth_self _ _ _ hcid]
  · intro j hj1 hj2
    rw [nthNode_setNth_ne _ _ _ _ hj1, nthNode_setNth_ne _ _ _ _ hj2]
  · rw [length_setNth, length_setNth]

/-- Claim C9: for a valid name that is its own strip, if a child of that
name already exists under the cursor (file or directory alike — no type
check), `touch` only refreshes that child's `modified_time` to the fresh
clock reading (strictly later than the old stamp), changing no other
node, no tree shape, and leaving the plain listing identical; if no such
child exists, `touch` creates a fresh empty file child with default
permissions/owner/group and zero size so that the listing then contains
the name. -/
theorem C9_touch_semantics (s : VFS) (name : String) (l : List (String × Nat))
    (cid : Nat)
    (hv : is_valid_name name = true)
    (hst : pyStrip name = name)
    (htype : (getNode s s.current_directory).type = "directory")
    (hch : (getNode s s.current_directory).children = some l)
    (hcur : s.current_directory < s.nodes.length) :
    (assocGet l name = some cid → cid < s.nodes.length →
      (touch name s).1 = none
      ∧ getNode (touch name s).2 cid =
          { getNode s cid with modified_time := s.clock }
      ∧ ((getNode s cid).modified_time < s.clock →
           (getNode s cid).modified_time <
             (getNode (touch name s).2 cid).modified_time)
      ∧ (∀ j, j ≠ cid → getNode (touch name s).2 j = getNode s j)
      ∧ ((touch name s).2.current_directory = s.current_directory
         ∧ (touch name s).2.root = s.root
         ∧ (touch name s).2.loaded = s.loaded)
      ∧ list_directory (touch name s).2 none false = list_directory s none false)
    ∧ (assocGet l name = none →
      (touch name s).1 = none
      ∧ getNode (touch name s).2 s.nodes.length =
          ⟨name, "file", some "", none, some s.current_directory, "rw-r--r--",
            "user", "user", 0, s.clock, s.clock + 1⟩
      ∧ (getNode (touch name s).2 s.current_directory).children =
          some (l ++ [(name, s.nodes.length)])
      ∧ ∃ items, list_directory (touch name s).2 none false = .ok items
          ∧ name ∈ items) := by
  have hne : name ≠ "" := by
    intro he
    rw [he] at hv
    exact absurd hv (by decide)
  have hcl : childrenD (getNode s s.current_directory) = l := by
    rw [childrenD, hch]
    rfl
  constructor
  · -- existing child: only its modified_time is refreshed
    intro hex hcid
    have hts : touch name s = (none, setNode { s with clock := s.clock + 1 } cid
        { getNode s cid with modified_time := s.clock }) := by
      rw [touch, if_neg hne, hst, hv, if_neg (by decide), hcl, hex]
    have hget : getNode (touch name s).2 cid =
        { getNode s cid with modified_time := s.clock } := by
      rw [hts]
      exact nthNode_setNth_self s.nodes cid _ hcid
    have hother : ∀ j, j ≠ cid → getNode (touch name s).2 j = getNode s j := by
      intro j hj
      rw [hts]
      exact nthNode_setNth_ne s.nodes cid j _ hj
    have htypes : ∀ j, (getNode (touch name s).2 j).type = (getNode s j).type := by
      intro j
      by_cases hj : j = cid
      · subst hj
        rw [hget]
      · rw [hother j hj]
    have hchildren : ∀ j, childrenD (getNode (touch name s).2 j) =
        childrenD (getNode s j) := by
      intro j
      by_cases hj : j = cid
      · subst hj
        rw [hget]
        rfl
      · rw [hother j hj]
    have hcc : (touch name s).2.current_directory = s.current_directory := by
      rw [hts]
      rfl
    refine ⟨by rw [hts], hget, ?_, hother,
      ⟨hcc, by rw [hts]; rfl, by rw [hts]; rfl⟩, ?_⟩
    · intro hold
      rw [hget]
      exact hold
    · -- the non-detailed cursor listing is unchanged
      simp only [list_directory, listTarget, hcc]
      rw [htypes s.current_directory]
      by_cases hnd : (getNode s s.current_directory).type ≠ "directory"
      · rw [if_pos hnd, if_pos hnd]
      · rw [if_neg hnd, if_neg hnd]
        simp only [Bool.false_eq_true, if_false]
        refine congrArg Except.ok ?_
        rw [hchildren s.current_directory]
        refine List.map_congr_left ?_
        intro pr _
        rw [htypes pr.2]
  · -- absent child: a fresh empty file is created and listed
    intro hab
    have hred : touch name s = (none,
        (add_child
          { s with
            nodes := s.nodes ++
              [⟨name, "file", some "", none, none, "rw-r--r--", "user", "user",
                0, s.clock, s.clock + 1⟩],
            clock := s.clock + 2 }
          s.current_directory s.nodes.length).2) := by
      rw [touch, if_neg hne, hst, hv, if_neg (by decide), hcl, hab]
      rfl
    set N : VFSNode := ⟨name, "file", some "", none, none, "rw-r--r--", "user",
      "user", 0, s.clock, s.clock + 1⟩ with hN
    set s1 : VFS := { s with nodes := s.nodes ++ [N], clock := s.clock + 2 }
      with hs1
    have hg1 : ∀ j, j < s.nodes.length → getNode s1 j = getNode s j := by
      intro j hj
      exact nthNode_append_lt s.nodes [N] j hj
    have hgN : getNode s1 s.nodes.length = N := nthNode_append_self s.nodes N
    have hlen1 : s1.nodes.length = s.nodes.length + 1 := by
      show (s.nodes ++ [N]).length = s.nodes.length + 1
      simp
    have parts := add_child_parts s1 s.current_directory s.nodes.length
      (by rw [hg1 s.current_directory hcur]; exact htype)
      (by rw [hlen1]; exact Nat.lt_succ_of_lt hcur)
      (Nat.ne_of_lt hcur)
      (by rw [hlen1]; exact Nat.lt_succ_self _)
    have ha2 : getNode (touch name s).2 s.nodes.length =
        ⟨name, "file", some "", none, some s.current_directory, "rw-r--r--",
          "user", "user", 0, s.clock, s.clock + 1⟩ := by
      rw [hred]
      rw [parts.2.1, hgN]
    have ha3 : getNode (touch name s).2 s.current_directory =
        { getNode s s.current_directory with
          children := some (l ++ [(name, s.nodes.length)]),
          modified_time := s.clock + 2 } := by
      rw [hred, parts.2.2.1, hg1 s.current_directory hcur, hgN]
      rw [show childrenD (getNode s s.current_directory) = l from hcl]
      rw [assocSet_append l name s.nodes.length hab]
    have hcc : (touch name s).2.current_directory = s.current_directory := by
      rw [hred]
      exact parts.2.2.2.2.1
    refine ⟨by rw [hred], ha2, by rw [ha3], ?_⟩
    refine ⟨(sortPairs (l ++ [(name, s.nodes.length)])).map
      (fun pr => if (getNode (touch name s).2 pr.2).type = "directory"
                 then pr.1 ++ "/" else pr.1), ?_, ?_⟩
    · simp only [list_directory, listTarget, hcc]
      rw [show (getNode (touch name s).2 s.current_directory).type =
          "directory" from by rw [ha3]; exact htype]
      rw [if_neg (by simp)]
      simp only [Bool.false_eq_true, if_false]
      refine congrArg Except.ok ?_
      rw [show childrenD (getNode (touch name s).2 s.current_directory) =
          l ++ [(name, s.nodes.length)] from by rw [childrenD, ha3]; rfl]
    · refine List.mem_map.mpr ⟨(name, s.nodes.length), ?_, ?_⟩
      · rw [mem_sortPairs]
        exact List.mem_append_right l (List.mem_singleton.mpr rfl)
      · rw [ha2]
        rfl

/-- Witness for C9: refreshing the existing `readme.txt` under
`/home/user` of the default tree. -/
theorem C9_touch_semantics_witness :
    (is_valid_name "readme.txt" = true ∧ pyStrip "readme.txt" = "readme.txt"
      ∧ (getNode stHome stHome.current_directory).type = "directory"
      ∧ (getNode stHome stHome.current_directory).children =
          some [("readme.txt", 7)]
      ∧ stHome.current_directory < stHome.nodes.length
      ∧ assocGet [("readme.txt", 7)] "readme.txt" = some 7
      ∧ (7 : Nat) < stHome.nodes.length
      ∧ (getNode stHome 7).modified_time < stHome.clock)
    ∧ ((touch "readme.txt" stHome).1 = none
       ∧ (getNode stHome 7).modified_time <
           (getNode (touch "readme.txt" stHome).2 7).modified_time
       ∧ list_directory (touch "readme.txt" stHome).2 none false =
           list_directory stHome none false) := by
  have h := (C9_touch_semantics stHome "readme.txt" [("readme.txt", 7)] 7
    rfl rfl rfl rfl (by decide)).1 rfl (by decide)
  exact ⟨⟨rfl, rfl, rfl, rfl, by decide, rfl, by decide, by decide⟩,
    h.1, h.2.2.1 (by decide), h.2.2.2.2.2⟩

theorem pathNames_spine (s : VFS) (hroot : rootOk s) :
    ∀ (n : Nat) (names : List String), PathTo s n names →
      (∀ nm ∈ names, normalName nm) →
      ∀ fuel, names.length + 1 ≤ fuel → pathNames s fuel n = names := by
  intro n names hp
  induction hp with
  | root =>
    intro _ fuel hf
    cases fuel with
    | zero => simp at hf
    | succ f =>
      simp only [pathNames]
      rw [if_pos hroot.1]
  | child hp htype hget hpar hname ih =>
    rename_i p names' nm c
    intro hnorm fuel hf
    cases fuel with
    | zero => simp at hf
    | succ f =>
      have hnm : normalName nm :=
        hnorm nm (List.mem_append_right _ (List.mem_singleton.mpr rfl))
      simp only [pathNames]
      rw [hname, if_neg hnm.1, hpar]
      show pathNames s f p ++ [nm] = names' ++ [nm]
      rw [ih (fun x hx => hnorm x (List.mem_append_left _ hx)) f (by
        simp at hf
        omega)]

theorem get_path_spine (s : VFS) (hroot : rootOk s) (n : Nat)
    (names : List String) (hp : PathTo s n names)
    (hnorm : ∀ nm ∈ names, normalName nm)
    (hlen : names.length ≤ s.nodes.length) :
    get_path s n = (if names = [] then "/" else "/" ++ joinSlash names) := by
  induction hp with
  | root =>
    rw [get_path, if_pos hroot.1, if_pos rfl]
  | child hp htype hget hpar hname ih =>
    rename_i p names' nm c
    have hnm : normalName nm :=
      hnorm nm (List.mem_append_right _ (List.mem_singleton.mpr rfl))
    rw [get_path, if_neg (by rw [hname]; exact hnm.1), if_neg (by simp)]
    rw [pathNames_spine s hroot c (names' ++ [nm])
      (PathTo.child hp htype hget hpar hname) hnorm (s.nodes.length + 1)
      (by simpa using Nat.succ_le_succ hlen)]

theorem resolveLoop_spine (s : VFS) :
    ∀ (n : Nat) (names : List String), PathTo s n names →
      (∀ nm ∈ names, normalName nm) →
      ∀ rest, resolveLoop s (names ++ rest) s.root = resolveLoop s rest n := by
  intro n names hp
  induction hp with
  | root => intro _ rest; rfl
  | child hp htype hget hpar hname ih =>
    rename_i p names' nm c
    intro hnorm rest
    have hnm : normalName nm :=
      hnorm nm (List.mem_append_right _ (List.mem_singleton.mpr rfl))
    rw [List.append_assoc]
    rw [ih (fun x hx => hnorm x (List.mem_append_left _ hx)) ([nm] ++ rest)]
    show resolveLoop s (nm :: rest) p = _
    rw [resolveLoop, if_neg hnm.2.2.1, if_neg hnm.2.1, if_pos htype, hget]

/-- Claim C5 (amended): the path round-trip
`full_path(resolve(full_path(n))) = full_path(n)` holds for every node
reachable from the root along coherent edges whose path components are
all plain names (non-empty, not `.`/`..`, no `/`).  Loaded names such as
`..` break it (see the counterexample). -/
theorem C5_roundtrip (s : VFS) (n : Nat) (names : List String)
    (hroot : rootOk s) (hp : PathTo s n names)
    (hnorm : ∀ nm ∈ names, normalName nm)
    (hlen : names.length ≤ s.nodes.length) :
    ∃ m, (resolve_path (get_path s n) s).1 = some m
      ∧ get_path s m = get_path s n := by
  have hgp := get_path_spine s hroot n names hp hnorm hlen
  cases hne : names with
  | nil =>
    subst hne
    rw [hgp, if_pos rfl]
    refine ⟨s.root, rfl, ?_⟩
    have h1 : get_path s s.root = "/" := by
      rw [get_path, if_pos hroot.1]
    rw [h1]
  | cons x rest' =>
    subst hne
    have hgp2 : get_path s n = "/" ++ joinSlash (x :: rest') := by
      rw [hgp]
      simp
    rw [hgp2]
    refine ⟨n, ?_, hgp2⟩
    have hdata : ("/" ++ joinSlash (x :: rest')).data =
        '/' :: (joinSlash (x :: rest')).data := by
      rw [String.data_append]
      rfl
    rw [resolve_abs s _ _ hdata]
    rw [components_joinSlash (x :: rest')
      (fun nm hm => ⟨(hnorm nm hm).1, (hnorm nm hm).2.2.2⟩)]
    have hloop := resolveLoop_spine s n (x :: rest') hp hnorm []
    rw [List.append_nil] at hloop
    rw [hloop]
    rfl

/-- Claim C5 is false as stated: with `docDotDot` loaded, the node named
`..` (id 10) is reachable from the root along a coherent edge, but
`full_path(resolve(full_path(n)))` gives `/` while `full_path(n)` is
`/..` — resolution interprets `..` as a parent step, not a child name. -/
theorem C5_roundtrip_counterexample :
    PathTo stDotDot 10 [".."]
    ∧ get_path stDotDot 10 = "/.."
    ∧ (resolve_path (get_path stDotDot 10) stDotDot).1 = some 0
    ∧ get_path stDotDot 0 = "/"
    ∧ get_path stDotDot 0 ≠ get_path stDotDot 10 := by
  refine ⟨?_, rfl, rfl, rfl, by decide⟩
  have h0 : PathTo stDotDot 0 [] := PathTo.root
  exact PathTo.child h0 rfl rfl rfl rfl

/-- Witness for the amended C5 at `/etc` of the default tree. -/
theorem C5_roundtrip_witness :
    (rootOk initVFS
      ∧ PathTo initVFS 3 ["etc"]
      ∧ (∀ nm ∈ (["etc"] : List String), normalName nm)
      ∧ (["etc"] : List String).length ≤ initVFS.nodes.length)
    ∧ ∃ m, (resolve_path (get_path initVFS 3) initVFS).1 = some m
        ∧ get_path initVFS m = get_path initVFS 3 := by
  have hpath : PathTo initVFS 3 ["etc"] :=
    PathTo.child (PathTo.root) rfl rfl rfl rfl
  have hnorm : ∀ nm ∈ (["etc"] : List String), normalName nm := by
    intro nm hm
    rw [List.mem_singleton] at hm
    subst hm
    exact ⟨by decide, by decide, by decide, by decide⟩
  exact ⟨⟨⟨rfl, rfl⟩, hpath, hnorm, by decide⟩,
    C5_roundtrip initVFS 3 ["etc"] ⟨rfl, rfl⟩ hpath hnorm (by decide)⟩

theorem getNode_oob (s : VFS) (i : Nat) (h : s.nodes.length ≤ i) :
    getNode s i = defaultNode := nthNode_oob s.nodes i h

theorem setNth_oob : ∀ (l : List VFSNode) (i : Nat) (n : VFSNode),
    l.length ≤ i → setNth l i n = l := by
  intro l
  induction l with
  | nil => intro i n _; cases i <;> rfl
  | cons m rest ih =>
    intro i n h
    cases i with
    | zero => simp at h
    | succ j =>
      show m :: setNth rest j n = m :: rest
      rw [ih j n (Nat.le_of_succ_le_succ h)]

theorem reaches_mono (s s' : VFS) (hroot : s'.root = s.root)
    (hch : ∀ j pr, pr ∈ childrenD (getNode s j) → pr ∈ childrenD (getNode s' j)) :
    ∀ i, Reaches s i → Reaches s' i := by
  intro i h
  induction h with
  | root => exact hroot ▸ Reaches.root
  | child hp hmem ih => exact Reaches.child ih (hch _ _ hmem)

theorem resolveLoop_reaches (s : VFS) (hpc : ParentClosed s) :
    ∀ (parts : List String) (cur t : Nat), Reaches s cur →
      (resolveLoop s parts cur).1 = some t → Reaches s t := by
  intro parts
  induction parts with
  | nil =>
    intro cur t hr h
    injection h with h
    exact h ▸ hr
  | cons part rest ih =>
    intro cur t hr h
    rw [resolveLoop] at h
    by_cases h1 : part = ".."
    · rw [if_pos h1] at h
      cases hpar : (getNode s cur).parent with
      | some q =>
        rw [hpar] at h
        exact ih q t (hpc cur q hr hpar) h
      | none =>
        rw [hpar] at h
        exact ih cur t hr h
    · rw [if_neg h1] at h
      by_cases h2 : part = "."
      · rw [if_pos h2] at h
        exact ih cur t hr h
      · rw [if_neg h2] at h
        by_cases h3 : (getNode s cur).type = "directory"
        · rw [if_pos h3] at h
          cases hget : assocGet (childrenD (getNode s cur)) part with
          | some c =>
            rw [hget] at h
            exact ih c t (Reaches.child hr (assocGet_mem _ _ _ hget)) h
          | none =>
            rw [hget] at h
            cases h
        · rw [if_neg h3] at h
          cases h

theorem resolve_reaches (s : VFS) (hpc : ParentClosed s)
    (hcur : Reaches s s.current_directory) (p : String) (t : Nat)
    (h : (resolve_path p s).1 = some t) : Reaches s t := by
  rw [resolve_path_eq] at h
  by_cases h0 : p = ""
  · rw [if_pos h0] at h
    injection h with h
    exact h ▸ Reaches.root
  · rw [if_neg h0] at h
    by_cases hss : startsSlash p
    · rw [if_pos hss] at h
      exact resolveLoop_reaches s hpc _ _ t Reaches.root h
    · rw [if_neg hss] at h
      exact resolveLoop_reaches s hpc _ _ t hcur h

theorem touch_cursorOk (s : VFS) (nm : String) (hc : cursorOk s) :
    cursorOk ((touch nm s).2) := by
  by_cases h0 : nm = ""
  · rw [touch, if_pos h0]
    exact hc
  · by_cases hval : is_valid_name (pyStrip nm) = false
    · rw [touch, if_neg h0, if_pos hval]
      exact hc
    · cases hget : assocGet (childrenD (getNode s s.current_directory))
          (pyStrip nm) with
      | some cid =>
        set X : VFSNode := { getNode s cid with modified_time := s.clock }
          with hX
        set S2 : VFS := setNode { s with clock := s.clock + 1 } cid X with hS2
        have hts : touch nm s = (none, S2) := by
          rw [touch, if_neg h0, if_neg hval, hget, hS2]
        rw [hts]
        by_cases hlt : cid < s.nodes.length
        · have hself : getNode S2 cid = X :=
            nthNode_setNth_self s.nodes cid X hlt
          have hother : ∀ j, j ≠ cid → getNode S2 j = getNode s j :=
            fun j hj => nthNode_setNth_ne s.nodes cid j X hj
          have hch : ∀ j pr, pr ∈ childrenD (getNode s j) →
              pr ∈ childrenD (getNode S2 j) := by
            intro j pr hm
            by_cases hj : j = cid
            · subst hj
              rw [hself, hX]
              exact hm
            · rw [hother j hj]
              exact hm
          refine ⟨reaches_mono s S2 rfl hch _ hc.1, ?_⟩
          show (getNode S2 S2.current_directory).type = "directory"
          by_cases hj : S2.current_directory = cid
          · rw [hj, hself, hX]
            have h2 : s.current_directory = cid := hj
            have hc2 := hc.2
            rw [h2] at hc2
            exact hc2
          · rw [show S2.current_directory = s.current_directory from rfl] at hj ⊢
            rw [hother _ hj]
            exact hc.2
        · have hnodes : setNth s.nodes cid X = s.nodes :=
            setNth_oob s.nodes cid X (Nat.le_of_not_lt hlt)
          have hch : ∀ j pr, pr ∈ childrenD (getNode s j) →
              pr ∈ childrenD (getNode S2 j) := by
            intro j pr hm
            have : getNode S2 j = getNode s j := by
              show nthNode (setNth s.nodes cid X) j = nthNode s.nodes j
              rw [hnodes]
            rw [this]
            exact hm
          refine ⟨reaches_mono s S2 rfl hch _ hc.1, ?_⟩
          show (getNode S2 S2.current_directory).type = "directory"
          have : getNode S2 S2.current_directory = getNode s s.current_directory := by
            show nthNode (setNth s.nodes cid X) s.current_directory =
              nthNode s.nodes s.current_directory
            rw [hnodes]
          rw [this]
          exact hc.2
      | none =>
        have hcur : s.current_directory < s.nodes.length := by
          by_contra hge
          have hoob := getNode_oob s s.current_directory (Nat.le_of_not_lt hge)
          have := hc.2
          rw [hoob] at this
          exact absurd this (by decide)
        set N : VFSNode := ⟨pyStrip nm, "file", some "", none, none,
          "rw-r--r--", "user", "user", 0, s.clock, s.clock + 1⟩ with hN
        set s1 : VFS := { s with nodes := s.nodes ++ [N], clock := s.clock + 2 }
          with hs1
        have hred : touch nm s = (none,
            (add_child s1 s.current_directory s.nodes.length).2) := by
          rw [touch, if_neg h0, if_neg hval, hget, hs1, hN]
          rfl
        have hg1 : ∀ j, j < s.nodes.length → getNode s1 j = getNode s j :=
          fun j hj => nthNode_append_lt s.nodes [N] j hj
        have hgN : getNode s1 s.nodes.length = N := nthNode_append_self s.nodes N
        have hlen1 : s1.nodes.length = s.nodes.length + 1 := by
          show (s.nodes ++ [N]).length = s.nodes.length + 1
          simp
        have parts := add_child_parts s1 s.current_directory s.nodes.length
          (by rw [hg1 s.current_directory hcur]; exact hc.2)
          (by rw [hlen1]; exact Nat.lt_succ_of_lt hcur)
          (Nat.ne_of_lt hcur)
          (by rw [hlen1]; exact Nat.lt_succ_self _)
        rw [hred]
        set S : VFS := (add_child s1 s.current_directory s.nodes.length).2
          with hS
        have hcc : S.current_directory = s.current_directory :=
          parts.2.2.2.2.1
        have hrt : S.root = s1.root := parts.2.2.2.2.2.1
        have hcurget := parts.2.2.1
        have hchcur : childrenD (getNode S s.current_directory) =
            childrenD (getNode s s.current_directory) ++
              [(pyStrip nm, s.nodes.length)] := by
          rw [hcurget, hg1 _ hcur, hgN]
          show (some (assocSet (childrenD (getNode s s.current_directory))
            N.name s.nodes.length)).getD [] = _
          rw [show N.name = pyStrip nm from rfl,
            assocSet_append _ _ _ hget]
          rfl
        have hch : ∀ j pr, pr ∈ childrenD (getNode s j) →
            pr ∈ childrenD (getNode S j) := by
          intro j pr hm
          by_cases hj : j = s.current_directory
          · subst hj
            rw [hchcur]
            exact List.mem_append_left _ hm
          · by_cases hj2 : j = s.nodes.length
            · subst hj2
              rw [getNode_oob s s.nodes.length (le_refl _)] at hm
              cases hm
            · rcases Nat.lt_or_ge j s.nodes.length with hl | hl
              · rw [parts.2.2.2.1 j hj hj2, hg1 j hl]
                exact hm
              · rw [getNode_oob s j hl] at hm
                cases hm
        constructor
        · rw [hcc]
          exact reaches_mono s S (by rw [hrt]) hch _ hc.1
        · show (getNode S S.current_directory).type = "directory"
          rw [hcc, hcurget, hg1 _ hcur]
          exact hc.2

theorem cd_cursorOk (s : VFS) (p : String) (hp : p ≠ "") (hc : cursorOk s)
    (hpc : ParentClosed s) : cursorOk ((change_directory p s).2) := by
  cases hres : (resolve_path p s).1 with
  | none =>
    have hpair : resolve_path p s = (none, s) :=
      Prod.ext hres (resolve_path_state p s)
    rw [change_directory, if_neg hp, hpair]
    exact hc
  | some td =>
    have hpair : resolve_path p s = (some td, s) :=
      Prod.ext hres (resolve_path_state p s)
    by_cases hty : (getNode s td).type = "directory"
    · have hcd : change_directory p s =
          (none, { s with current_directory := td }) := by
        rw [change_directory, if_neg hp, hpair]
        show (if (getNode s td).type ≠ "directory" then _ else _) = _
        rw [if_neg (not_not_intro hty)]
      rw [hcd]
      have hreach : Reaches s td := resolve_reaches s hpc hc.1 p td hres
      exact ⟨reaches_mono s { s with current_directory := td } rfl
        (fun j pr h => h) td hreach, hty⟩
    · have hcd : change_directory p s = (some ("Not a directory: " ++ p), s) := by
        rw [change_directory, if_neg hp, hpair]
        show (if (getNode s td).type ≠ "directory" then _ else _) = _
        rw [if_pos hty]
      rw [hcd]
      exact hc

theorem cd_home_cursorOk (s : VFS) (hc : cursorOk s) (hpc : ParentClosed s)
    (hh : homeTypeOk s) : cursorOk ((change_directory "" s).2) := by
  cases hres : (resolve_path "/home/user" s).1 with
  | none =>
    have hpair : resolve_path "/home/user" s = (none, s) :=
      Prod.ext hres (resolve_path_state _ s)
    have hcd : change_directory "" s =
        (none, { s with current_directory := s.root }) := by
      rw [change_directory, if_pos rfl, hpair]
    rw [hcd]
    have hh2 : (getNode s s.root).type = "directory" := by
      have := hh
      rw [homeTypeOk, hres] at this
      exact this
    exact ⟨reaches_mono s { s with current_directory := s.root } rfl
      (fun j pr h => h) _ Reaches.root, hh2⟩
  | some hd =>
    have hpair : resolve_path "/home/user" s = (some hd, s) :=
      Prod.ext hres (resolve_path_state _ s)
    have hcd : change_directory "" s =
        (none, { s with current_directory := hd }) := by
      rw [change_directory, if_pos rfl, hpair]
    rw [hcd]
    have hh2 : (getNode s hd).type = "directory" := by
      have := hh
      rw [homeTypeOk, hres] at this
      exact this
    have hreach : Reaches s hd := resolve_reaches s hpc hc.1 "/home/user" hd hres
    exact ⟨reaches_mono s { s with current_directory := hd } rfl
      (fun j pr h => h) hd hreach, hh2⟩

/-- Claim C2 (amended): the cursor invariant (a directory-kind node
reachable from the root) holds after construction and is preserved by
resolution (which leaves the state untouched), by `touch`, by
`change_directory` with a path (assuming parent links of reachable nodes
lead to reachable nodes, as the constructor and loader guarantee), and by
`change_directory` with no path (assuming the home-or-root node it
commits is a directory); `load_from_xml` merely leaves the cursor
reference unchanged, which is why a reload can break reachability (see
the counterexample). -/
theorem C2_cursor_invariant (s : VFS) (p nm : String) (src : XMLSource)
    (hp : p ≠ "") (hc : cursorOk s) (hpc : ParentClosed s)
    (hh : homeTypeOk s) :
    cursorOk initVFS
    ∧ cursorOk ((resolve_path p s).2)
    ∧ cursorOk ((touch nm s).2)
    ∧ cursorOk ((change_directory p s).2)
    ∧ cursorOk ((change_directory "" s).2)
    ∧ ((load_from_xml src s).2).current_directory = s.current_directory := by
  refine ⟨⟨Reaches.root, rfl⟩, ?_, touch_cursorOk s nm hc,
    cd_cursorOk s p hp hc hpc, cd_home_cursorOk s hc hpc hh, load_cursor src s⟩
  rw [resolve_path_state]
  exact hc

/-- Claim C2 is false as stated: after a successful reload the unchanged
cursor (the old `/home/user` node, id 6) is no longer reachable from the
root, whose only remaining child is the freshly loaded file (id 10). -/
theorem C2_cursor_invariant_counterexample :
    (load_from_xml docGood stHome).1 = .ok true ∧ ¬ cursorOk stLoaded := by
  refine ⟨rfl, ?_⟩
  rintro ⟨hreach, -⟩
  have key : ∀ i, Reaches stLoaded i → i = 0 ∨ i = 10 := by
    intro i h
    induction h with
    | root => exact Or.inl rfl
    | child hp hmem ih =>
      rename_i p c nm
      rcases ih with h0 | h10
      · subst h0
        rw [show childrenD (getNode stLoaded 0) = [("a", 10)] from rfl] at hmem
        simp at hmem
        exact Or.inr hmem.2
      · subst h10
        rw [show childrenD (getNode stLoaded 10) = [] from rfl] at hmem
        cases hmem
  have h6 : stLoaded.current_directory = 6 := rfl
  have hk := key _ hreach
  rw [h6] at hk
  rcases hk with h | h <;> simp at h

/-- Witness for the amended C2 on a small two-node tree. -/
theorem C2_cursor_invariant_witness :
    (("/d" : String) ≠ "" ∧ cursorOk wsmall ∧ ParentClosed wsmall
      ∧ homeTypeOk wsmall)
    ∧ (cursorOk initVFS
       ∧ cursorOk ((resolve_path "/d" wsmall).2)
       ∧ cursorOk ((touch "f" wsmall).2)
       ∧ cursorOk ((change_directory "/d" wsmall).2)
       ∧ cursorOk ((change_directory "" wsmall).2)
       ∧ ((load_from_xml docGood wsmall).2).current_directory =
           wsmall.current_directory) := by
  have hco : cursorOk wsmall := ⟨Reaches.root, rfl⟩
  have key : ∀ i, Reaches wsmall i → i = 0 ∨ i = 1 := by
    intro i h
    induction h with
    | root => exact Or.inl rfl
    | child hp hmem ih =>
      rename_i p c nm
      rcases ih with h0 | h1
      · subst h0
        rw [show childrenD (getNode wsmall 0) = [("d", 1)] from rfl] at hmem
        simp at hmem
        exact Or.inr hmem.2
      · subst h1
        rw [show childrenD (getNode wsmall 1) = [] from rfl] at hmem
        cases hmem
  have hpc : ParentClosed wsmall := by
    intro i q hr hpar
    rcases key i hr with h0 | h1
    · subst h0
      rw [show (getNode wsmall 0).parent = none from rfl] at hpar
      cases hpar
    · subst h1
      rw [show (getNode wsmall 1).parent = some 0 from rfl] at hpar
      injection hpar with hq
      subst hq
      exact Reaches.root
  have hh : homeTypeOk wsmall := by
    rw [homeTypeOk, show (resolve_path "/home/user" wsmall).1 = none from rfl]
    rfl
  exact ⟨⟨by decide, hco, hpc, hh⟩,
    C2_cursor_invariant wsmall "/d" "f" docGood (by decide) hco hpc hh⟩
